import Mathlib

/-!
Verification development for the thermal_processor video pipeline
(thermal_processor.py). Machine integers and floating point values are
embedded as Nat and Rat (exact arithmetic); the score-to-temperature
power function uses real exponentiation, so the records carrying a
temperature live over the reals. Fallible I/O is embedded as an explicit
environment record. Connected-component labeling is provided by an
external library (cv2.connectedComponentsWithStats); its output is
embedded as a list of components, each a list of pixels carrying the
coordinates and the smoothed score value, with the per-label statistics
(left, top, width, height, area) recomputed from the pixel lists exactly
as that library documents them.
-/

namespace ThermalProcessor

/-- Embedding of np.clip(x, lo, hi): values below lo are raised to lo,
values above hi are lowered to hi (the upper bound is applied last). -/
def clip (x lo hi : ℚ) : ℚ := min (max x lo) hi

/-- Embedding of np.clip on reals, for the temperature mapping. -/
noncomputable def clipR (x lo hi : ℝ) : ℝ := min (max x lo) hi

/-- Embedding of the Python builtin int() on a rational: truncation
toward zero. -/
def pyint (q : ℚ) : ℤ := if 0 ≤ q then ⌊q⌋ else -⌊-q⌋

/-- Configuration record produced by parse_args after the clamping block
(thermal_processor.py lines 139-151). Fields input/output/stat and the
boolean toggles are pass-through strings and flags, omitted here. -/
structure RunConfig where
  pLow : ℚ
  pHigh : ℚ
  gamma : ℚ
  alphaMax : ℚ
  ema : ℚ
deriving Repr, DecidableEq

/-- Embedding of the clamping block of parse_args (lines 142-149):
pLow and pHigh are clipped to [0, 0.999]; if pHigh is not strictly above
pLow it is bumped to min(pLow + 0.01, 0.999); alpha and ema are clipped
to [0, 1]. The gamma argument has no clamping in the source. -/
def parse_clamp (pLow pHigh gamma alpha ema : ℚ) : RunConfig :=
  let pl := clip pLow 0 (999/1000)
  let ph0 := clip pHigh 0 (999/1000)
  let ph := if ph0 ≤ pl then min (pl + 1/100) (999/1000) else ph0
  { pLow := pl, pHigh := ph, gamma := gamma, alphaMax := clip alpha 0 1,
    ema := clip ema 0 1 }

/-- Area filter of find_hotspots_from_thr (line 282): the minimum
retained component area is max(1, int(total * 1e-4)). -/
def min_area (total : ℕ) : ℕ := max 1 (total / 10000)

/-- Area filter of find_hotspots_from_thr (line 283): the maximum
retained component area is max(min_area, int(total * 0.25)). -/
def max_area (total : ℕ) : ℕ := max (min_area total) (total / 4)

/-- Per-component keep decision of find_hotspots_from_thr (line 288):
the component survives the area filter exactly when
min_area <= area <= max_area. -/
def areaKeep (total area : ℕ) : Bool :=
  decide (min_area total ≤ area ∧ area ≤ max_area total)

/-- Embedding of the no-overlay pixel path (lines 439-450): the uint8
channel value is divided by 255, copied unchanged, multiplied by 255,
clipped to [0, 255] and truncated to an unsigned byte. -/
def no_overlay_pixel (v : ℕ) : ℕ :=
  let f : ℚ := (v : ℚ) / 255
  (⌊clip (f * 255) 0 255⌋).toNat

/-- Abstract I/O environment for process_video: whether the input path
exists, whether the decoder opens it, and whether the encoder opens the
output path. -/
structure IOEnv where
  inputExists : Bool
  inputOpens : Bool
  outputOpens : Bool
deriving Repr, DecidableEq

/-- Exit status of the missing-dependency guard around the cv2 import
(lines 37-45): sys.exit(3). -/
def missing_dependency_exit : ℕ := 3

/-- Control-flow skeleton of process_video (lines 342-547) restricted to
exit codes and the number of frames processed: returns the pair of the
exit status and the count of frames that were read and written. Input
missing or unopenable returns 3 before any frame is touched (lines
343-356); output unopenable returns 3 (lines 379-385); otherwise all
frames are processed and the function returns 0 (line 547). -/
def process_video_run (e : IOEnv) (frames : ℕ) : ℕ × ℕ :=
  if e.inputExists = false then (3, 0)
  else if e.inputOpens = false then (3, 0)
  else if e.outputOpens = false then (3, 0)
  else (0, frames)

/-- Degenerate-range bump of process_video (lines 418-419): if the high
percentile value is not strictly above the low one, raise it to
low + 1e-6. -/
def bump_range (p : ℚ × ℚ) : ℚ × ℚ :=
  if p.2 ≤ p.1 then (p.1, p.1 + 1/1000000) else p

/-- Percentile threshold selection of process_video (lines 404-419):
sort the flattened smoothed score map; pick the order statistics at
ranks int(pLow * (N - 1)) and int(pHigh * (N - 1)), each clamped to
[0, N - 1]; an empty map yields the pair (0, 1); finally apply the
degenerate-range bump. -/
def norm_thresholds (pLow pHigh : ℚ) (flat : List ℚ) : ℚ × ℚ :=
  let raw :=
    if flat.length = 0 then ((0 : ℚ), (1 : ℚ))
    else
      let s := List.insertionSort (fun a b : ℚ => a ≤ b) flat
      let n := s.length
      let iLow := max 0 (min (pyint (pLow * ((n : ℚ) - 1))) ((n : ℤ) - 1))
      let iHigh := max 0 (min (pyint (pHigh * ((n : ℚ) - 1))) ((n : ℤ) - 1))
      (s.getD iLow.toNat 0, s.getD iHigh.toNat 0)
  bump_range raw

/-- Per-pixel dynamic range normalization of process_video (lines
431-435): rescale by the two thresholds and clip to [0, 1]. -/
def normalize_score (lo hi v : ℚ) : ℚ := clip ((v - lo) / (hi - lo)) 0 1

/-- Blue-to-cyan segment formula of build_colormap (lines 221-225), as a
function of the gamma-corrected value tg: (R, G, B) = (0, tg/0.33, 1). -/
def seg1Color (tg : ℚ) : ℚ × ℚ × ℚ := (0, tg / (33/100), 1)

/-- Cyan-to-yellow segment formula of build_colormap (lines 228-232):
u = (tg - 0.33)/0.33 and (R, G, B) = (u, 1, 1 - u). -/
def seg2Color (tg : ℚ) : ℚ × ℚ × ℚ :=
  ((tg - 33/100) / (33/100), 1, 1 - (tg - 33/100) / (33/100))

/-- Yellow-to-red segment formula of build_colormap (lines 235-239):
u = (tg - 0.66)/0.34 and (R, G, B) = (1, 1 - u, 0). -/
def seg3Color (tg : ℚ) : ℚ × ℚ × ℚ :=
  (1, 1 - (tg - 66/100) / (34/100), 0)

/-- Piecewise color ramp of build_colormap (lines 216-239) as a function
of the gamma-corrected value tg: segment one for tg < 0.33, segment two
for 0.33 <= tg < 0.66, segment three for tg >= 0.66. -/
def colormapColor (tg : ℚ) : ℚ × ℚ × ℚ :=
  if tg < 33/100 then seg1Color tg
  else if tg < 66/100 then seg2Color tg
  else seg3Color tg

/-- Embedding of score_to_temp (lines 187-198): clamp the score to
[0, 1], raise it to the gamma power, and map affinely from ambient to
maxC. -/
noncomputable def score_to_temp (score ambient maxC gamma : ℝ) : ℝ :=
  ambient + (maxC - ambient) * (clipR score 0 1) ^ gamma

/-- Mask pixel as handed to the hotspot detector: coordinates in the
frame together with the smoothed heat score at that position. -/
structure Pix where
  row : ℕ
  col : ℕ
  val : ℚ
deriving Repr, DecidableEq

/-- Hotspot record built by find_hotspots_from_thr (lines 299-309):
bounding box, pixel area, mean score of the component, and mapped
temperature. -/
structure Hotspot where
  x : ℕ
  y : ℕ
  w : ℕ
  h : ℕ
  pixels : ℕ
  meanScore : ℚ
  tempC : ℝ

/-- Minimum of a list of naturals (0 on the empty list; the detector
only evaluates it on nonempty components). -/
def minList (l : List ℕ) : ℕ :=
  match l with
  | [] => 0
  | x :: xs => xs.foldl min x

/-- Maximum of a list of naturals (0 on the empty list). -/
def maxList (l : List ℕ) : ℕ :=
  match l with
  | [] => 0
  | x :: xs => xs.foldl max x

/-- Arithmetic mean of a list of rationals, as computed by the mean
method on the component scores (line 295). -/
def meanQ (l : List ℚ) : ℚ := l.sum / (l.length : ℚ)

/-- Sort order used on hotspots (lines 311 and 560): by pixel area,
descending. -/
def byAreaDesc (a b : Hotspot) : Prop := b.pixels ≤ a.pixels

instance : DecidableRel byAreaDesc :=
  fun a b => inferInstanceAs (Decidable (b.pixels ≤ a.pixels))

instance : IsTotal Hotspot byAreaDesc :=
  ⟨fun a b => le_total b.pixels a.pixels⟩

instance : IsTrans Hotspot byAreaDesc :=
  ⟨fun _ _ _ h1 h2 => le_trans h2 h1⟩

/-- Hotspot record for one labeled component (lines 287-309): the
bounding-box statistics are those cv2.connectedComponentsWithStats
documents for a label (leftmost column, topmost row, horizontal and
vertical extent, pixel count), recomputed here from the pixel list; the
mean score is the mean of the heat values over the component, and the
temperature is score_to_temp of that mean. -/
noncomputable def hotspotFromComp (ambient maxC gamma : ℝ)
    (comp : List Pix) : Hotspot :=
  let cols := comp.map Pix.col
  let rows := comp.map Pix.row
  let ms := meanQ (comp.map Pix.val)
  { x := minList cols, y := minList rows,
    w := maxList cols + 1 - minList cols,
    h := maxList rows + 1 - minList rows,
    pixels := comp.length,
    meanScore := ms,
    tempC := score_to_temp ((ms : ℚ) : ℝ) ambient maxC gamma }

/-- Embedding of find_hotspots_from_thr (lines 259-312) given the
components of the thresholded mask as produced by the external labeling
call: components failing the area filter or empty are skipped, the
survivors become hotspot records, and the result is sorted by pixel area
descending and truncated to max_boxes = 20. -/
noncomputable def find_hotspots_from_thr (height width : ℕ)
    (ambient maxC gamma : ℝ) (comps : List (List Pix)) : List Hotspot :=
  let total := height * width
  let kept := comps.filter (fun comp => areaKeep total comp.length && !comp.isEmpty)
  let hs := kept.map (hotspotFromComp ambient maxC gamma)
  (List.insertionSort byAreaDesc hs).take 20

/-- Minimum of a list of reals in the style of the Python builtin min:
none on the empty list. -/
noncomputable def pyminR : List ℝ → Option ℝ
  | [] => none
  | x :: xs => some (xs.foldl min x)

/-- Maximum of a list of reals in the style of the Python builtin max:
none on the empty list. -/
noncomputable def pymaxR : List ℝ → Option ℝ
  | [] => none
  | x :: xs => some (xs.foldl max x)

/-- Summary record of build_summary (lines 571-586) restricted to the
computed fields; file, width, height, framesUsed, durationSec, stat and
the configuration echoes are verbatim pass-throughs of the inputs. -/
structure Summary where
  minHotspotTempC : Option ℝ
  maxHotspotTempC : Option ℝ
  hotspots : List Hotspot

/-- Embedding of build_summary (lines 550-586): sort the accumulated
hotspots by pixel area descending and keep the top 40; the min and max
temperature are taken over the whole accumulated list and are absent
exactly when it is empty. -/
noncomputable def build_summary (hotspots : List Hotspot) : Summary :=
  let sorted := List.insertionSort byAreaDesc hotspots
  { minHotspotTempC := pyminR (hotspots.map Hotspot.tempC),
    maxHotspotTempC := pymaxR (hotspots.map Hotspot.tempC),
    hotspots := sorted.take 40 }

lemma clip_le_hi (x lo hi : ℚ) : clip x lo hi ≤ hi := min_le_right _ _

lemma lo_le_clip (x lo hi : ℚ) (h : lo ≤ hi) : lo ≤ clip x lo hi :=
  le_min (le_max_right x lo) h

lemma foldlMin_le_init {α : Type} [LinearOrder α] :
    ∀ (xs : List α) (x : α), xs.foldl min x ≤ x
  | [], _ => le_refl _
  | a :: xs, x =>
    le_trans (foldlMin_le_init xs (min x a)) (min_le_left x a)

lemma foldlMin_le_mem {α : Type} [LinearOrder α] :
    ∀ (xs : List α) (x y : α), y ∈ xs → xs.foldl min x ≤ y
  | a :: xs, x, y, h => by
    rcases List.mem_cons.mp h with h1 | h2
    · subst h1
      exact le_trans (foldlMin_le_init xs (min x y)) (min_le_right x y)
    · exact foldlMin_le_mem xs (min x a) y h2

lemma foldlMin_mem {α : Type} [LinearOrder α] :
    ∀ (xs : List α) (x : α), xs.foldl min x = x ∨ xs.foldl min x ∈ xs
  | [], _ => Or.inl rfl
  | a :: xs, x => by
    rcases foldlMin_mem xs (min x a) with h | h
    · rcases min_choice x a with h2 | h2
      · exact Or.inl (by rw [List.foldl_cons, h, h2])
      · refine Or.inr ?_
        rw [List.foldl_cons, h, h2]
        exact List.mem_cons_self a xs
    · exact Or.inr (List.mem_cons_of_mem a h)

lemma init_le_foldlMax {α : Type} [LinearOrder α] :
    ∀ (xs : List α) (x : α), x ≤ xs.foldl max x
  | [], _ => le_refl _
  | a :: xs, x =>
    le_trans (le_max_left x a) (init_le_foldlMax xs (max x a))

lemma mem_le_foldlMax {α : Type} [LinearOrder α] :
    ∀ (xs : List α) (x y : α), y ∈ xs → y ≤ xs.foldl max x
  | a :: xs, x, y, h => by
    rcases List.mem_cons.mp h with h1 | h2
    · subst h1
      exact le_trans (le_max_right x y) (init_le_foldlMax xs (max x y))
    · exact mem_le_foldlMax xs (max x a) y h2

lemma foldlMax_mem {α : Type} [LinearOrder α] :
    ∀ (xs : List α) (x : α), xs.foldl max x = x ∨ xs.foldl max x ∈ xs
  | [], _ => Or.inl rfl
  | a :: xs, x => by
    rcases foldlMax_mem xs (max x a) with h | h
    · rcases max_choice x a with h2 | h2
      · exact Or.inl (by rw [List.foldl_cons, h, h2])
      · refine Or.inr ?_
        rw [List.foldl_cons, h, h2]
        exact List.mem_cons_self a xs
    · exact Or.inr (List.mem_cons_of_mem a h)

lemma pyminR_eq_none_iff (l : List ℝ) : pyminR l = none ↔ l = [] := by
  cases l <;> simp [pyminR]

lemma pymaxR_eq_none_iff (l : List ℝ) : pymaxR l = none ↔ l = [] := by
  cases l <;> simp [pymaxR]

lemma pyminR_spec (l : List ℝ) (m : ℝ) (h : pyminR l = some m) :
    m ∈ l ∧ ∀ t ∈ l, m ≤ t := by
  match l with
  | [] => simp [pyminR] at h
  | x :: xs =>
    rw [pyminR] at h
    have hm : xs.foldl min x = m := Option.some_injective _ h
    constructor
    · rcases foldlMin_mem xs x with h1 | h1
      · rw [← hm, h1]
        exact List.mem_cons_self x xs
      · rw [← hm]
        exact List.mem_cons_of_mem x h1
    · intro t ht
      rcases List.mem_cons.mp ht with h1 | h1
      · rw [← hm, h1]
        exact foldlMin_le_init xs x
      · rw [← hm]
        exact foldlMin_le_mem xs x t h1

lemma pymaxR_spec (l : List ℝ) (m : ℝ) (h : pymaxR l = some m) :
    m ∈ l ∧ ∀ t ∈ l, t ≤ m := by
  match l with
  | [] => simp [pymaxR] at h
  | x :: xs =>
    rw [pymaxR] at h
    have hm : xs.foldl max x = m := Option.some_injective _ h
    constructor
    · rcases foldlMax_mem xs x with h1 | h1
      · rw [← hm, h1]
        exact List.mem_cons_self x xs
      · rw [← hm]
        exact List.mem_cons_of_mem x h1
    · intro t ht
      rcases List.mem_cons.mp ht with h1 | h1
      · rw [← hm, h1]
        exact init_le_foldlMax xs x
      · rw [← hm]
        exact mem_le_foldlMax xs x t h1

lemma meanQ_bounds (l : List ℚ) (hne : l ≠ [])
    (h0 : ∀ v ∈ l, 0 ≤ v) (h1 : ∀ v ∈ l, v ≤ 1) :
    0 ≤ meanQ l ∧ meanQ l ≤ 1 := by
  have hlen : 0 < (l.length : ℚ) := by
    exact_mod_cast List.length_pos.mpr hne
  have hsum0 : 0 ≤ l.sum := List.sum_nonneg h0
  have hsum1 : l.sum ≤ (l.length : ℚ) := by
    have := List.sum_le_card_nsmul l 1 h1
    simpa using this
  constructor
  · exact div_nonneg hsum0 hlen.le
  · rw [meanQ, div_le_one hlen]
    exact hsum1

lemma minList_le_maxList (l : List ℕ) (hne : l ≠ []) :
    minList l ≤ maxList l := by
  match l with
  | [] => exact absurd rfl hne
  | x :: xs =>
    rw [minList, maxList]
    exact le_trans (foldlMin_le_init xs x) (init_le_foldlMax xs x)

lemma maxList_lt (l : List ℕ) (hne : l ≠ []) (b : ℕ)
    (h : ∀ y ∈ l, y < b) : maxList l < b := by
  match l with
  | [] => exact absurd rfl hne
  | x :: xs =>
    rw [maxList]
    rcases foldlMax_mem xs x with h1 | h1
    · rw [h1]
      exact h x (List.mem_cons_self x xs)
    · exact h _ (List.mem_cons_of_mem x h1)

lemma bump_range_lt (p : ℚ × ℚ) : (bump_range p).1 < (bump_range p).2 := by
  rw [bump_range]
  split
  · exact lt_add_of_pos_right _ (by norm_num)
  · rename_i h
    exact lt_of_not_le h

/-- C2 counterexample: gamma is never clamped by parse_args, so the
input gamma = 10 survives unchanged and lies outside [0.1, 6.0]. -/
theorem C2_gamma_not_clamped :
    (parse_clamp (8/10) (98/100) 10 (6/10) 0).gamma = 10 ∧
    ¬ ((1/10 : ℚ) ≤ (parse_clamp (8/10) (98/100) 10 (6/10) 0).gamma ∧
       (parse_clamp (8/10) (98/100) 10 (6/10) 0).gamma ≤ 6) := by
  refine ⟨rfl, ?_⟩
  rw [parse_clamp]
  norm_num

/-- C2 amended: after parse_args clamping, percentileLow and
percentileHigh lie in [0, 0.999], alphaMax and ema lie in [0, 1], while
gamma is passed through completely unchanged (no clamping to [0.1, 6.0]
exists in the code). -/
theorem C2_clamped_ranges (pLow pHigh gamma alpha ema : ℚ) :
    (0 ≤ (parse_clamp pLow pHigh gamma alpha ema).pLow ∧
      (parse_clamp pLow pHigh gamma alpha ema).pLow ≤ 999/1000) ∧
    (0 ≤ (parse_clamp pLow pHigh gamma alpha ema).pHigh ∧
      (parse_clamp pLow pHigh gamma alpha ema).pHigh ≤ 999/1000) ∧
    (0 ≤ (parse_clamp pLow pHigh gamma alpha ema).alphaMax ∧
      (parse_clamp pLow pHigh gamma alpha ema).alphaMax ≤ 1) ∧
    (0 ≤ (parse_clamp pLow pHigh gamma alpha ema).ema ∧
      (parse_clamp pLow pHigh gamma alpha ema).ema ≤ 1) ∧
    (parse_clamp pLow pHigh gamma alpha ema).gamma = gamma := by
  have hp : (0 : ℚ) ≤ 999/1000 := by norm_num
  have h1 : (0 : ℚ) ≤ 1 := by norm_num
  refine ⟨⟨lo_le_clip _ _ _ hp, clip_le_hi _ _ _⟩, ?_,
    ⟨lo_le_clip _ _ _ h1, clip_le_hi _ _ _⟩,
    ⟨lo_le_clip _ _ _ h1, clip_le_hi _ _ _⟩, rfl⟩
  rw [parse_clamp]
  dsimp only
  split
  · constructor
    · exact le_min (by linarith [lo_le_clip pLow 0 (999/1000) hp]) hp
    · exact min_le_right _ _
  · exact ⟨lo_le_clip _ _ _ hp, clip_le_hi _ _ _⟩

/-- C3 counterexample: with input pLow = 0.999 (the clamp cap) and
pHigh = 0.5, the auto-bump sets pHigh = min(0.999 + 0.01, 0.999) =
0.999 = pLow, so percentileHigh is not strictly greater. -/
theorem C3_equal_at_cap :
    (parse_clamp (999/1000) (1/2) (12/10) (6/10) 0).pLow = 999/1000 ∧
    (parse_clamp (999/1000) (1/2) (12/10) (6/10) 0).pHigh = 999/1000 ∧
    ¬ ((parse_clamp (999/1000) (1/2) (12/10) (6/10) 0).pLow <
       (parse_clamp (999/1000) (1/2) (12/10) (6/10) 0).pHigh) := by
  refine ⟨?_, ?_, ?_⟩ <;> · rw [parse_clamp, clip, clip]; norm_num

/-- C3 amended: after clamping and auto-bump, percentileHigh is always
at least percentileLow, and strictly greater whenever the clamped
percentileLow is below the 0.999 cap; only when the clamped
percentileLow equals 0.999 can the two coincide. -/
theorem C3_pHigh_ge_pLow (pLow pHigh gamma alpha ema : ℚ) :
    (parse_clamp pLow pHigh gamma alpha ema).pLow ≤
      (parse_clamp pLow pHigh gamma alpha ema).pHigh ∧
    ((parse_clamp pLow pHigh gamma alpha ema).pLow < 999/1000 →
      (parse_clamp pLow pHigh gamma alpha ema).pLow <
        (parse_clamp pLow pHigh gamma alpha ema).pHigh) := by
  rw [parse_clamp]
  dsimp only
  have hcap : clip pLow 0 (999/1000) ≤ 999/1000 := clip_le_hi _ _ _
  split
  · constructor
    · exact le_min (by linarith) hcap
    · intro hlt
      exact lt_min (by linarith) hlt
  · rename_i h
    push_neg at h
    exact ⟨le_of_lt h, fun _ => h⟩

/-- C3 witness: at inputs pLow = 0.5, pHigh = 0.98 the clamped pLow is
below the cap and percentileHigh comes out strictly greater. -/
theorem C3_pHigh_ge_pLow_witness :
    (parse_clamp (1/2) (98/100) (12/10) (6/10) 0).pLow < 999/1000 ∧
    (parse_clamp (1/2) (98/100) (12/10) (6/10) 0).pLow <
      (parse_clamp (1/2) (98/100) (12/10) (6/10) 0).pHigh :=
  ⟨by rw [parse_clamp, clip]; norm_num,
   (C3_pHigh_ge_pLow (1/2) (98/100) (12/10) (6/10) 0).2
     (by rw [parse_clamp, clip]; norm_num)⟩

/-- C1 counterexample: on a frame of 25000 total pixels the claimed
inclusive band starts at 1e-4 * 25000 = 2.5, so a 2-pixel component lies
strictly below the lower bound and the claim says it is discarded; the
code floors the bound to int(2.5) = 2 and retains the component. -/
theorem C1_floor_cex :
    areaKeep 25000 2 = true ∧ ¬ ((25000 : ℚ) * (1/10000) ≤ (2 : ℚ)) := by
  refine ⟨by decide, by norm_num⟩

/-- C1 amended: for any frame of at least 4 pixels, a component is
retained by the area filter exactly when its area is at least
max(1, floor(minAreaFraction * totalPixels)) — the floored lower bound,
not the exact product — and at most maxAreaFraction * totalPixels, the
upper bound being inclusive exactly as claimed. -/
theorem C1_area_band (total area : ℕ) (h4 : 4 ≤ total) :
    areaKeep total area = true ↔
      (max 1 (total / 10000) ≤ area ∧
        (area : ℚ) ≤ (total : ℚ) * (25/100)) := by
  have hlow : total / 10000 ≤ total / 4 :=
    Nat.div_le_div_left (by norm_num) (by norm_num)
  have hone : 1 ≤ total / 4 := by
    rw [Nat.le_div_iff_mul_le (by norm_num : 0 < 4)]
    simpa using h4
  have hmax : max_area total = total / 4 := by
    rw [max_area, min_area]
    exact max_eq_right (max_le hone hlow)
  rw [areaKeep, decide_eq_true_iff, hmax, min_area]
  constructor
  · rintro ⟨hl, hr⟩
    refine ⟨hl, ?_⟩
    rw [Nat.le_div_iff_mul_le (by norm_num : 0 < 4)] at hr
    have : (area : ℚ) * 4 ≤ (total : ℚ) := by exact_mod_cast hr
    linarith
  · rintro ⟨hl, hr⟩
    refine ⟨hl, ?_⟩
    rw [Nat.le_div_iff_mul_le (by norm_num : 0 < 4)]
    have : (area : ℚ) * 4 ≤ (total : ℚ) := by linarith
    exact_mod_cast this

/-- C1 witness: on a 25000-pixel frame a component of 6250 pixels (the
exact upper bound) is characterized by the amended band. -/
theorem C1_area_band_witness :
    4 ≤ 25000 ∧
    (areaKeep 25000 6250 = true ↔
      (max 1 (25000 / 10000) ≤ 6250 ∧
        ((6250 : ℚ) ≤ (25000 : ℚ) * (25/100)))) :=
  ⟨by decide, C1_area_band 25000 6250 (by decide)⟩

/-- C4 counterexample: the input-open failure, the output-open failure
and the missing-dependency failure all exit with the same status 3, so
the three fatal startup failures do not have pairwise distinct exit
statuses. -/
theorem C4_exit_codes_not_distinct :
    (process_video_run ⟨false, true, true⟩ 7).1 = 3 ∧
    (process_video_run ⟨true, true, false⟩ 7).1 = 3 ∧
    missing_dependency_exit = 3 := by
  exact ⟨rfl, rfl, rfl⟩

/-- C4 amended: the program exits with 0 exactly when the input exists,
the decoder opens it and the encoder opens the output; every fatal
startup failure (input missing or unopenable, output unopenable,
dependency missing) exits with the one shared nonzero status 3; and an
input-open failure processes zero frames. -/
theorem C4_exit_codes (e : IOEnv) (n : ℕ) :
    ((process_video_run e n).1 = 0 ↔
      e.inputExists = true ∧ e.inputOpens = true ∧ e.outputOpens = true) ∧
    ((process_video_run e n).1 ≠ 0 → (process_video_run e n).1 = 3) ∧
    (e.inputExists = false → process_video_run e n = (3, 0)) ∧
    (e.inputExists = true ∧ e.inputOpens = false →
      process_video_run e n = (3, 0)) ∧
    missing_dependency_exit = 3 := by
  rcases e with ⟨i1, i2, i3⟩
  cases i1 <;> cases i2 <;> cases i3 <;>
    simp [process_video_run, missing_dependency_exit]

/-- C4 witness: a run whose input path does not exist exits with status
3 having processed zero frames. -/
theorem C4_exit_codes_witness :
    process_video_run ⟨false, true, true⟩ 4 = (3, 0) :=
  (C4_exit_codes ⟨false, true, true⟩ 4).2.2.1 rfl

/-- C5 confirmed: in the no-overlay path, dividing a byte value by 255,
multiplying back by 255, clipping to [0, 255] and truncating to a byte
returns the value unchanged, so the written frame is pixel-identical to
the input frame. -/
theorem C5_no_overlay_identity (v : ℕ) (h : v ≤ 255) :
    no_overlay_pixel v = v := by
  have h255 : ((v : ℚ) / 255) * 255 = (v : ℚ) := by
    rw [div_mul_cancel₀]
    norm_num
  rw [no_overlay_pixel]
  rw [h255, clip, max_eq_left (by positivity), min_eq_left (by exact_mod_cast h)]
  rw [Int.floor_natCast]
  exact Int.toNat_natCast v

/-- C5 witness: channel value 200 survives the round trip unchanged. -/
theorem C5_no_overlay_identity_witness :
    (200 : ℕ) ≤ 255 ∧ no_overlay_pixel 200 = 200 :=
  ⟨by decide, C5_no_overlay_identity 200 (by decide)⟩

/-- C6 confirmed: for every nonempty smoothed score map the high
threshold computed by the normalizer is strictly greater than the low
threshold after the degenerate-range bump, and every normalized value
lies in [0, 1]. -/
theorem C6_normalizer (pLow pHigh : ℚ) (flat : List ℚ) (_hne : flat ≠ []) :
    (norm_thresholds pLow pHigh flat).1 < (norm_thresholds pLow pHigh flat).2 ∧
    ∀ v : ℚ,
      0 ≤ normalize_score (norm_thresholds pLow pHigh flat).1
          (norm_thresholds pLow pHigh flat).2 v ∧
      normalize_score (norm_thresholds pLow pHigh flat).1
          (norm_thresholds pLow pHigh flat).2 v ≤ 1 := by
  refine ⟨bump_range_lt _, fun v => ⟨?_, clip_le_hi _ _ _⟩⟩
  exact lo_le_clip _ _ _ (by norm_num)

/-- C6 witness: the constant two-pixel map [1/2, 1/2] is nonempty and
its bumped thresholds are strictly ordered. -/
theorem C6_normalizer_witness :
    ([(1/2 : ℚ), 1/2] ≠ []) ∧
    (norm_thresholds (8/10) (98/100) [(1/2 : ℚ), 1/2]).1 <
      (norm_thresholds (8/10) (98/100) [(1/2 : ℚ), 1/2]).2 :=
  ⟨by simp, (C6_normalizer (8/10) (98/100) [(1/2 : ℚ), 1/2] (by simp)).1⟩

/-- C8 confirmed: the color ramp is exactly pure blue at tg = 0 and pure
red at tg = 1, and the adjacent segment formulas agree exactly at the
boundaries tg = 0.33 and tg = 0.66. -/
theorem C8_colormap_boundaries :
    colormapColor 0 = (0, 0, 1) ∧
    colormapColor 1 = (1, 0, 0) ∧
    seg1Color (33/100) = seg2Color (33/100) ∧
    seg2Color (66/100) = seg3Color (66/100) := by
  refine ⟨?_, ?_, ?_, ?_⟩
  · rw [colormapColor, if_pos (by norm_num : (0 : ℚ) < 33/100), seg1Color]
    norm_num
  · rw [colormapColor, if_neg (by norm_num : ¬ ((1 : ℚ) < 33/100)),
      if_neg (by norm_num : ¬ ((1 : ℚ) < 66/100)), seg3Color]
    norm_num
  · rw [seg1Color, seg2Color]
    norm_num
  · rw [seg2Color, seg3Color]
    norm_num

/-- C9 confirmed: with maxC above ambient and a positive gamma, the
score-to-temperature mapping is monotone non-decreasing in the score. -/
theorem C9_score_to_temp_mono (ambient maxC gamma s1 s2 : ℝ)
    (hc : ambient < maxC) (hg : 0 < gamma) (hs : s1 ≤ s2) :
    score_to_temp s1 ambient maxC gamma ≤ score_to_temp s2 ambient maxC gamma := by
  rw [score_to_temp, score_to_temp]
  have h0 : 0 ≤ clipR s1 0 1 := le_min (le_max_right _ _) zero_le_one
  have h1 : clipR s1 0 1 ≤ clipR s2 0 1 :=
    min_le_min (max_le_max hs le_rfl) le_rfl
  have hpow : (clipR s1 0 1) ^ gamma ≤ (clipR s2 0 1) ^ gamma :=
    Real.rpow_le_rpow h0 h1 hg.le
  have hcoef : (0 : ℝ) ≤ maxC - ambient := by linarith
  nlinarith [mul_le_mul_of_nonneg_left hpow hcoef]

/-- C7 confirmed: the summary keeps min(40, n) hotspots, sorted by pixel
area descending, all drawn from the accumulated list (all of them when
at most 40 were accumulated), and the min and max temperature are the
extrema over the whole accumulated list, absent exactly when the list is
empty. -/
theorem C7_build_summary (hs : List Hotspot) :
    (build_summary hs).hotspots.length = min 40 hs.length ∧
    List.Sorted byAreaDesc (build_summary hs).hotspots ∧
    (∀ x ∈ (build_summary hs).hotspots, x ∈ hs) ∧
    (hs.length ≤ 40 → (build_summary hs).hotspots.Perm hs) ∧
    ((build_summary hs).minHotspotTempC = none ↔ hs = []) ∧
    ((build_summary hs).maxHotspotTempC = none ↔ hs = []) ∧
    (∀ m, (build_summary hs).minHotspotTempC = some m →
      m ∈ hs.map Hotspot.tempC ∧ ∀ t ∈ hs.map Hotspot.tempC, m ≤ t) ∧
    (∀ m, (build_summary hs).maxHotspotTempC = some m →
      m ∈ hs.map Hotspot.tempC ∧ ∀ t ∈ hs.map Hotspot.tempC, t ≤ m) := by
  have hperm := List.perm_insertionSort byAreaDesc hs
  have hlen : (List.insertionSort byAreaDesc hs).length = hs.length :=
    hperm.length_eq
  rw [build_summary]
  refine ⟨?_, ?_, ?_, ?_, ?_, ?_, ?_, ?_⟩
  · rw [List.length_take, hlen]
  · exact (List.sorted_insertionSort byAreaDesc hs).sublist
      (List.take_sublist _ _)
  · intro x hx
    exact hperm.mem_iff.mp (List.take_subset _ _ hx)
  · intro hle
    have : (List.insertionSort byAreaDesc hs).take 40 =
        List.insertionSort byAreaDesc hs :=
      List.take_of_length_le (by rw [hlen]; exact hle)
    rw [this]
    exact hperm
  · rw [pyminR_eq_none_iff, List.map_eq_nil_iff]
  · rw [pymaxR_eq_none_iff, List.map_eq_nil_iff]
  · intro m hm
    exact pyminR_spec _ m hm
  · intro m hm
    exact pymaxR_spec _ m hm

/-- C7 witness: for a singleton accumulated list the retained list is a
permutation of (here, equal to) the accumulated list. -/
theorem C7_build_summary_witness :
    ([(⟨0, 0, 1, 1, 5, 1/2, (30 : ℝ)⟩ : Hotspot)].length ≤ 40) ∧
    (build_summary [(⟨0, 0, 1, 1, 5, 1/2, (30 : ℝ)⟩ : Hotspot)]).hotspots.Perm
      [(⟨0, 0, 1, 1, 5, 1/2, (30 : ℝ)⟩ : Hotspot)] :=
  ⟨by simp,
   (C7_build_summary [(⟨0, 0, 1, 1, 5, 1/2, (30 : ℝ)⟩ : Hotspot)]).2.2.2.1
     (by simp)⟩

/-- C9 witness: with ambient 22, maxC 120 and gamma 1 the temperature at
score 0 does not exceed the temperature at score 1. -/
theorem C9_score_to_temp_mono_witness :
    (22 : ℝ) < 120 ∧ (0 : ℝ) < 1 ∧ (0 : ℝ) ≤ 1 ∧
    score_to_temp 0 22 120 1 ≤ score_to_temp 1 22 120 1 :=
  ⟨by norm_num, by norm_num, by norm_num,
   C9_score_to_temp_mono 22 120 1 0 1 (by norm_num) (by norm_num) (by norm_num)⟩

lemma score_to_temp_range (s ambient maxC gamma : ℝ)
    (hc : ambient ≤ maxC) (hg : 0 ≤ gamma) :
    ambient ≤ score_to_temp s ambient maxC gamma ∧
    score_to_temp s ambient maxC gamma ≤ maxC := by
  rw [score_to_temp]
  have h0 : 0 ≤ clipR s 0 1 := le_min (le_max_right _ _) zero_le_one
  have h1 : clipR s 0 1 ≤ 1 := min_le_right _ _
  have hp0 : 0 ≤ (clipR s 0 1) ^ gamma := Real.rpow_nonneg h0 gamma
  have hp1 : (clipR s 0 1) ^ gamma ≤ 1 := Real.rpow_le_one h0 h1 hg
  constructor
  · nlinarith
  · nlinarith

/-- C10 counterexample: the configuration does not clamp gamma, and a
run with gamma = -1 on a 1-by-4 frame containing one single-pixel
component of score 1/2 emits a hotspot whose temperature is
22 + (120 - 22) * (1/2)^(-1) = 218, above maxC = 120 although
maxC is at least ambientC. -/
theorem C10_negative_gamma_cex :
    (find_hotspots_from_thr 1 4 22 120 (-1)
        [[(⟨0, 0, 1/2⟩ : Pix)]]).map Hotspot.tempC = [218] ∧
    (22 : ℝ) ≤ 120 ∧ ¬ ((218 : ℝ) ≤ 120) := by
  refine ⟨?_, by norm_num, by norm_num⟩
  rw [find_hotspots_from_thr]
  norm_num [areaKeep, min_area, max_area, List.filter, hotspotFromComp,
    meanQ, minList, maxList, List.insertionSort, List.orderedInsert,
    score_to_temp, clipR]

/-- C10 amended: when the components lie inside the frame, their scores
lie in [0, 1] (as the clipped and smoothed heat map guarantees), maxC is
at least ambientC and gamma is nonnegative, every hotspot record emitted
by the detector has a positive pixel count, a bounding box inside the
frame, a mean score in [0, 1] and a temperature in [ambientC, maxC]. -/
theorem C10_hotspot_invariants (height width : ℕ) (ambient maxC gamma : ℝ)
    (comps : List (List Pix))
    (hcoord : ∀ comp ∈ comps, ∀ p ∈ comp, p.row < height ∧ p.col < width)
    (hval : ∀ comp ∈ comps, ∀ p ∈ comp, 0 ≤ p.val ∧ p.val ≤ 1)
    (hc : ambient ≤ maxC) (hg : 0 ≤ gamma) :
    ∀ hsp ∈ find_hotspots_from_thr height width ambient maxC gamma comps,
      1 ≤ hsp.pixels ∧
      hsp.x + hsp.w ≤ width ∧
      hsp.y + hsp.h ≤ height ∧
      0 ≤ hsp.meanScore ∧ hsp.meanScore ≤ 1 ∧
      ambient ≤ hsp.tempC ∧ hsp.tempC ≤ maxC := by
  intro hsp hmem
  rw [find_hotspots_from_thr] at hmem
  have hmem2 := List.take_subset _ _ hmem
  have hmem3 := (List.perm_insertionSort byAreaDesc _).mem_iff.mp hmem2
  obtain ⟨comp, hcomp, rfl⟩ := List.mem_map.mp hmem3
  have hfil := List.mem_filter.mp hcomp
  have hcm : comp ∈ comps := hfil.1
  have hne : comp ≠ [] := by
    have := (Bool.and_eq_true _ _).mp hfil.2
    intro hnil
    rw [hnil] at this
    simpa using this.2
  have hrowsne : comp.map Pix.row ≠ [] := by
    simpa [List.map_eq_nil_iff] using hne
  have hcolsne : comp.map Pix.col ≠ [] := by
    simpa [List.map_eq_nil_iff] using hne
  have hvalsne : comp.map Pix.val ≠ [] := by
    simpa [List.map_eq_nil_iff] using hne
  rw [hotspotFromComp]
  dsimp only
  refine ⟨?_, ?_, ?_, ?_, ?_, ?_, ?_⟩
  · exact List.length_pos.mpr hne
  · have hmm : minList (comp.map Pix.col) ≤ maxList (comp.map Pix.col) + 1 :=
      le_trans (minList_le_maxList _ hcolsne) (Nat.le_succ _)
    have hx : minList (comp.map Pix.col) +
        (maxList (comp.map Pix.col) + 1 - minList (comp.map Pix.col)) =
        maxList (comp.map Pix.col) + 1 := Nat.add_sub_cancel' hmm
    rw [hx]
    have : maxList (comp.map Pix.col) < width := by
      refine maxList_lt _ hcolsne width ?_
      intro y hy
      obtain ⟨p, hp, rfl⟩ := List.mem_map.mp hy
      exact (hcoord comp hcm p hp).2
    omega
  · have hmm : minList (comp.map Pix.row) ≤ maxList (comp.map Pix.row) + 1 :=
      le_trans (minList_le_maxList _ hrowsne) (Nat.le_succ _)
    have hy : minList (comp.map Pix.row) +
        (maxList (comp.map Pix.row) + 1 - minList (comp.map Pix.row)) =
        maxList (comp.map Pix.row) + 1 := Nat.add_sub_cancel' hmm
    rw [hy]
    have : maxList (comp.map Pix.row) < height := by
      refine maxList_lt _ hrowsne height ?_
      intro y hy2
      obtain ⟨p, hp, rfl⟩ := List.mem_map.mp hy2
      exact (hcoord comp hcm p hp).1
    omega
  · refine (meanQ_bounds _ hvalsne ?_ ?_).1 <;>
      · intro v hv
        obtain ⟨p, hp, rfl⟩ := List.mem_map.mp hv
        first
        | exact (hval comp hcm p hp).1
        | exact (hval comp hcm p hp).2
  · refine (meanQ_bounds _ hvalsne ?_ ?_).2 <;>
      · intro v hv
        obtain ⟨p, hp, rfl⟩ := List.mem_map.mp hv
        first
        | exact (hval comp hcm p hp).1
        | exact (hval comp hcm p hp).2
  · exact (score_to_temp_range ((meanQ (comp.map Pix.val) : ℚ) : ℝ)
      ambient maxC gamma hc hg).1
  · exact (score_to_temp_range ((meanQ (comp.map Pix.val) : ℚ) : ℝ)
      ambient maxC gamma hc hg).2

/-- C10 witness: on a 1-by-4 frame with one admissible single-pixel
component and gamma = 1, every emitted hotspot satisfies the amended
invariants. -/
theorem C10_hotspot_invariants_witness :
    (∀ comp ∈ [[(⟨0, 0, 1/2⟩ : Pix)]], ∀ p ∈ comp,
      p.row < 1 ∧ p.col < 4) ∧
    (∀ comp ∈ [[(⟨0, 0, 1/2⟩ : Pix)]], ∀ p ∈ comp,
      0 ≤ p.val ∧ p.val ≤ 1) ∧
    (22 : ℝ) ≤ 120 ∧ (0 : ℝ) ≤ 1 ∧
    (∀ hsp ∈ find_hotspots_from_thr 1 4 22 120 1 [[(⟨0, 0, 1/2⟩ : Pix)]],
      1 ≤ hsp.pixels ∧
      hsp.x + hsp.w ≤ 4 ∧
      hsp.y + hsp.h ≤ 1 ∧
      0 ≤ hsp.meanScore ∧ hsp.meanScore ≤ 1 ∧
      (22 : ℝ) ≤ hsp.tempC ∧ hsp.tempC ≤ 120) :=
  ⟨by decide, by norm_num, by norm_num, by norm_num,
   C10_hotspot_invariants 1 4 22 120 1 [[(⟨0, 0, 1/2⟩ : Pix)]]
     (by decide) (by norm_num) (by norm_num) (by norm_num)⟩
